import Mathlib

/-!
# Virtual Memory Simulator — verification of the specification against the code

The repository is a demand-paged virtual-memory simulator with a React
frontend (`src/frontend/src/App.js`, present in the repository) and a Flask
backend holding the simulation engine (described by the specification but not
present under `src/`).

This file shallowly embeds:
* the simulation engine (frame pool, page tables, TLB, replacement policies,
  address translator, statistics) — modelled from the spec, since the backend
  source is not in the repository;
* the frontend logic the claims reference (`runBenchmark`, `resetSimulator`,
  `translateAddress`, `calculateSystemResources`) — translated from
  `src/frontend/src/App.js`.
-/

namespace VMSim

/-- Modelled from the spec: page size in bytes, fixed at 4096 (spec §4.4 step 2, §6). -/
def pageSize : Nat := 4096

/-- Modelled from the spec: number of physical frames in the default pool (spec §4.1: fixed capacity 16). -/
def defaultNumFrames : Nat := 16

/-- Modelled from the spec: TLB capacity (spec §4.3: fixed capacity 4). -/
def tlbCapacity : Nat := 4

/-- Modelled from the spec: page table entry (§3): `{frame: optional index,
valid, dirty, referenced}`. -/
structure PTE where
  frame : Option Nat
  valid : Bool
  dirty : Bool
  referenced : Bool
deriving DecidableEq, Repr

/-- Modelled from the spec: a freshly created page-table entry: invalid, no frame (spec §3 lifecycle). -/
def PTE.initial : PTE := ⟨none, false, false, false⟩

/-- Modelled from the spec: a process (§3): pages_needed and a page table
mapping page numbers `0 .. pages_needed - 1` to PTEs (represented positionally:
index `i` of `page_table` is the PTE of page `i`). -/
structure Proc where
  pages_needed : Nat
  page_table : List PTE
deriving DecidableEq, Repr

/-- Modelled from the spec: the four replacement policies (spec §4.2). -/
inductive Algo
  | FIFO
  | LRU
  | Clock
  | Optimal
deriving DecidableEq, Repr

/-- Modelled from the spec: the whole mutable simulation state (§2, §5):
frame pool occupancy, process registry, TLB, per-policy bookkeeping and the
statistics counters. `frames` has one slot per physical frame, holding the
`(pid, page)` occupant or `none`; `tlb` is ordered oldest-insertion-first;
`fifoQueue` is the global load-order queue; `lruOrder` the global recency
order (least recent first); `clockHand` the clock pointer; `future` the
remaining access sequence supplied only in comparison mode (spec §4.2
Optimal). -/
structure SimState where
  frames : List (Option (Nat × Nat))
  procs : List (Nat × Proc)
  tlb : List ((Nat × Nat) × Nat)
  algo : Algo
  fifoQueue : List (Nat × Nat)
  lruOrder : List (Nat × Nat)
  clockHand : Nat
  future : List (Nat × Nat)
  page_faults : Nat
  memory_accesses : Nat
  tlb_hits : Nat
  tlb_misses : Nat
deriving DecidableEq, Repr

/-- Modelled from the spec: the empty simulator over `n` frames: no processes, all frames free,
empty TLB, FIFO active, zeroed counters (spec §6 `reset`). -/
def initState (n : Nat) : SimState :=
  { frames := List.replicate n none
    procs := []
    tlb := []
    algo := .FIFO
    fifoQueue := []
    lruOrder := []
    clockHand := 0
    future := []
    page_faults := 0
    memory_accesses := 0
    tlb_hits := 0
    tlb_misses := 0 }

/-! ## Association-list helpers (registry keyed by pid, TLB keyed by (pid,page)) -/

/-- Lookup in an association list keyed by `Nat`. -/
def alookup {β : Type} : List (Nat × β) → Nat → Option β
  | [], _ => none
  | (k, v) :: rest, key => if k = key then some v else alookup rest key

/-- Replace the value bound to a present key (identity when the key is absent). -/
def aupdate {β : Type} : List (Nat × β) → Nat → β → List (Nat × β)
  | [], _, _ => []
  | (k, v) :: rest, key, v' =>
      if k = key then (k, v') :: rest else (k, v) :: aupdate rest key v'

/-- Remove every binding of a key. -/
def aremove {β : Type} : List (Nat × β) → Nat → List (Nat × β)
  | [], _ => []
  | (k, v) :: rest, key =>
      if k = key then aremove rest key else (k, v) :: aremove rest key

/-! ## TLB (spec §4.3): capacity 4, keyed by (pid, page), evicting the
least-recently-inserted entry on overflow (the documented consistent choice). -/

/-- Modelled from the spec: TLB lookup by key. -/
def tlbLookup : List ((Nat × Nat) × Nat) → Nat × Nat → Option Nat
  | [], _ => none
  | (k, f) :: rest, key => if k = key then some f else tlbLookup rest key

/-- Modelled from the spec: drop oldest entries down to the TLB capacity. -/
def tlbTrim (l : List ((Nat × Nat) × Nat)) : List ((Nat × Nat) × Nat) :=
  l.drop (l.length - tlbCapacity)

/-- Modelled from the spec: TLB insert: drop any entry with the same key, append the new entry, then
drop oldest entries down to capacity (spec §4.3: evict the
least-recently-inserted entry on overflow). -/
def tlbInsert (tlb : List ((Nat × Nat) × Nat)) (key : Nat × Nat) (f : Nat) :
    List ((Nat × Nat) × Nat) :=
  tlbTrim ((tlb.filter (fun e => e.1 ≠ key)) ++ [(key, f)])

/-- Modelled from the spec: remove the entry of one (pid, page) key (spec §4.3 `invalidate`). -/
def tlbInvalidate (tlb : List ((Nat × Nat) × Nat)) (key : Nat × Nat) :
    List ((Nat × Nat) × Nat) :=
  tlb.filter (fun e => e.1 ≠ key)

/-- Modelled from the spec: remove all entries of one process (spec §4.3 `invalidate_process`). -/
def tlbInvalidateProcess (tlb : List ((Nat × Nat) × Nat)) (pid : Nat) :
    List ((Nat × Nat) × Nat) :=
  tlb.filter (fun e => e.1.1 ≠ pid)

/-! ## Frame pool (spec §4.1) -/

/-- Modelled from the spec: index of the first free frame, if any (spec §4.1 `allocate_free`). -/
def findFreeFrame : List (Option (Nat × Nat)) → Option Nat
  | [] => none
  | none :: _ => some 0
  | some _ :: rest => (findFreeFrame rest).map (· + 1)

/-- Modelled from the spec: all resident (pid, page) pairs, in frame order. -/
def residentPages (frames : List (Option (Nat × Nat))) : List (Nat × Nat) :=
  frames.filterMap id

/-! ## Process registry -/

/-- Modelled from the spec: smallest unused pid ≥ 1 (spec §6 `create_process`). -/
def freshPid (procs : List (Nat × Proc)) : Nat :=
  (((List.range (procs.length + 1)).map (· + 1)).find?
    (fun p => (alookup procs p).isNone)).getD (procs.length + 1)

/-- Modelled from the spec: rewrite one PTE of one process (identity when the pid is absent or the
page out of range). -/
def setPTE (s : SimState) (pid page : Nat) (pte : PTE) : SimState :=
  match alookup s.procs pid with
  | none => s
  | some pr =>
      let pr' : Proc := { pr with page_table := pr.page_table.set page pte }
      { s with procs := aupdate s.procs pid pr' }

/-- Modelled from the spec: the PTE of (pid, page), defaulting to the initial (invalid) entry. -/
def getPTE (s : SimState) (pid page : Nat) : PTE :=
  match alookup s.procs pid with
  | none => PTE.initial
  | some pr => pr.page_table.getD page PTE.initial

/-! ## Replacement policies (spec §4.2) -/

/-- Modelled from the spec: recency bookkeeping shared by the policies: on every reference move the
key to the most-recent end of the global recency order (spec §4.2 LRU
`on_access`). -/
def touchAccess (s : SimState) (key : Nat × Nat) : SimState :=
  { s with lruOrder := (s.lruOrder.filter (fun k => k ≠ key)) ++ [key] }

/-- Modelled from the spec: clear the referenced (use) bit of one page. -/
def clearRef (s : SimState) (pid page : Nat) : SimState :=
  setPTE s pid page { getPTE s pid page with referenced := false }

/-- Modelled from the spec: clock scan (spec §4.2 Clock): advance the hand over occupied frames,
clearing the referenced (use) bit of pages with the bit set, stopping at the
first page with the bit clear. Fuel bounds the scan at two rings. -/
def clockScan (s : SimState) : Nat → Option ((Nat × Nat) × SimState)
  | 0 => none
  | fuel + 1 =>
      if s.frames.length = 0 then none
      else
        match s.frames.getD (s.clockHand % s.frames.length) none with
        | none =>
            clockScan { s with clockHand := s.clockHand % s.frames.length + 1 } fuel
        | some (vpid, vpage) =>
            if (getPTE s vpid vpage).referenced then
              clockScan { clearRef s vpid vpage with
                clockHand := s.clockHand % s.frames.length + 1 } fuel
            else
              some ((vpid, vpage),
                { s with clockHand := s.clockHand % s.frames.length + 1 })

/-- Modelled from the spec: index of the next use of a key in the remaining accesses, by page
identity; `none` when never reused. -/
def nextUse (future : List (Nat × Nat)) (key : Nat × Nat) : Option Nat :=
  future.findIdx? (fun a => a.1 = key.1 ∧ a.2 / pageSize = key.2)

/-- Modelled from the spec: `true` when candidate `b` is a strictly better Optimal victim than `a`:
further next use, never-reused preferred, ties broken by lowest (pid, page)
(spec §4.2 Optimal). -/
def betterOptVictim (future : List (Nat × Nat)) (a b : Nat × Nat) : Bool :=
  match nextUse future a, nextUse future b with
  | none, none => decide (b.1 < a.1 ∨ (b.1 = a.1 ∧ b.2 < a.2))
  | none, some _ => false
  | some _, none => true
  | some na, some nb =>
      decide (na < nb) || (decide (na = nb) &&
        decide (b.1 < a.1 ∨ (b.1 = a.1 ∧ b.2 < a.2)))

/-- Modelled from the spec: Optimal victim: resident page with the furthest next use, never-reused
preferred, lowest (pid, page) on ties (spec §4.2 Optimal). -/
def optVictim (s : SimState) : Option (Nat × Nat) :=
  match residentPages s.frames with
  | [] => none
  | r :: rest =>
      some (rest.foldl
        (fun best c => if betterOptVictim s.future best c then c else best) r)

/-- Modelled from the spec: victim selection for the active policy (spec §4.2 `select_victim`):
FIFO takes the global queue head; LRU the least-recently-used resident page;
Clock scans the ring (possibly clearing use bits); Optimal uses the supplied
future accesses. Returns the victim key and the (possibly bit-updated)
state. -/
def selectVictim (s : SimState) : Option ((Nat × Nat) × SimState) :=
  match s.algo with
  | .FIFO =>
      match s.fifoQueue with
      | [] => none
      | v :: _ => some (v, s)
  | .LRU =>
      (s.lruOrder.find? (fun k => (residentPages s.frames).contains k)).map
        (fun v => (v, s))
  | .Clock => clockScan s (2 * s.frames.length + 1)
  | .Optimal => (optVictim s).map (fun v => (v, s))

/-! ## Address translator (spec §4.4) -/

/-- Modelled from the spec: structured translation outcome (spec §4.4 step 7; trace steps omitted,
the claims only reference these four fields). -/
structure TranslationResult where
  physical_address : Nat
  frame : Nat
  page_fault : Bool
  tlb_hit : Bool
deriving DecidableEq, Repr

/-- Modelled from the spec: error taxonomy of the translator (spec §7). -/
inductive TranslateError
  | UnknownProcess
  | InvalidPage
  | InvariantViolation
deriving DecidableEq, Repr

/-- `true` when a translation outcome is the `InvalidPage` failure. -/
def isInvalidPage {α : Type} : Except TranslateError α → Bool
  | .error .InvalidPage => true
  | _ => false

/-- Modelled from the spec: evict the victim (pid, page): invalidate its PTE, clear its frame,
invalidate its TLB entry and drop it from the policy bookkeeping — all in the
same transaction (spec §4.4 step 5, §3 ownership). -/
def evictKey (s : SimState) (vkey : Nat × Nat) : Except TranslateError (Nat × SimState) :=
  match (getPTE s vkey.1 vkey.2).frame with
  | none => .error .InvariantViolation
  | some vf =>
      let s1 := setPTE s vkey.1 vkey.2
        { getPTE s vkey.1 vkey.2 with valid := false, frame := none }
      .ok (vf,
        { s1 with
            frames := s1.frames.set vf none
            tlb := tlbInvalidate s1.tlb vkey
            fifoQueue := s1.fifoQueue.filter (fun k => k ≠ vkey)
            lruOrder := s1.lruOrder.filter (fun k => k ≠ vkey) })

/-- Modelled from the spec: fault service, frame acquisition half (spec §4.4 step 5): take a free
frame if any, otherwise select and evict a victim. -/
def acquireFrame (s : SimState) : Except TranslateError (Nat × SimState) :=
  match findFreeFrame s.frames with
  | some f => .ok (f, s)
  | none =>
      match selectVictim s with
      | none => .error .InvariantViolation
      | some (vkey, s') => evictKey s' vkey

/-- Modelled from the spec: state change of a TLB-hit translation (spec §4.4 step 3): mark the
referenced bit, update recency and the hit/access counters. -/
def tlbHitStep (s : SimState) (pid page : Nat) : SimState :=
  let s2 := touchAccess (setPTE s pid page
    { getPTE s pid page with referenced := true }) (pid, page)
  { s2 with memory_accesses := s2.memory_accesses + 1, tlb_hits := s2.tlb_hits + 1 }

/-- Modelled from the spec: state change of a page-table-hit translation (spec §4.4 step 4): mark
the referenced bit, refill the TLB, update recency and the miss/access
counters. -/
def ptHitStep (s : SimState) (pid page f : Nat) : SimState :=
  let s2 := touchAccess (setPTE s pid page
    { getPTE s pid page with referenced := true }) (pid, page)
  { s2 with
      tlb := tlbInsert s2.tlb (pid, page) f
      memory_accesses := s2.memory_accesses + 1
      tlb_misses := s2.tlb_misses + 1 }

/-- Modelled from the spec: state change of servicing a fault once a frame is free (spec §4.4
step 6): mark the PTE valid with the new frame, occupy the frame, refill the
TLB, append to the global load queue, update recency and the
fault/miss/access counters. -/
def faultLoadStep (s1 : SimState) (pid page f : Nat) : SimState :=
  let s3 := touchAccess (setPTE s1 pid page
    { frame := some f, valid := true, dirty := false, referenced := true }) (pid, page)
  { s3 with
      frames := s3.frames.set f (some (pid, page))
      tlb := tlbInsert s3.tlb (pid, page) f
      fifoQueue := s3.fifoQueue ++ [(pid, page)]
      page_faults := s3.page_faults + 1
      memory_accesses := s3.memory_accesses + 1
      tlb_misses := s3.tlb_misses + 1 }

/-- Modelled from the spec: translate `(pid, virtual_address)` (spec §4.4): TLB lookup, then page
table, then fault service with eviction and load; every path updates the
statistics and the policy bookkeeping. The page number is the address
divided by the page size, the offset its remainder (low 12 bits). -/
def translate_address (s : SimState) (pid va : Nat) :
    Except TranslateError (TranslationResult × SimState) :=
  match alookup s.procs pid with
  | none => .error .UnknownProcess
  | some pr =>
      if va / pageSize < pr.pages_needed then
        match tlbLookup s.tlb (pid, va / pageSize) with
        | some f =>
            .ok ({ physical_address := f * pageSize + va % pageSize, frame := f,
                   page_fault := false, tlb_hit := true },
                 tlbHitStep s pid (va / pageSize))
        | none =>
            if (getPTE s pid (va / pageSize)).valid then
              match (getPTE s pid (va / pageSize)).frame with
              | none => .error .InvariantViolation
              | some f =>
                  .ok ({ physical_address := f * pageSize + va % pageSize, frame := f,
                         page_fault := false, tlb_hit := false },
                       ptHitStep s pid (va / pageSize) f)
            else
              match acquireFrame s with
              | .error e => .error e
              | .ok (f, s1) =>
                  .ok ({ physical_address := f * pageSize + va % pageSize, frame := f,
                         page_fault := true, tlb_hit := false },
                       faultLoadStep s1 pid (va / pageSize) f)
      else .error .InvalidPage

/-! ## The remaining operations (spec §6) -/

/-- Modelled from the spec: `create_process(pages)`: register a fresh pid with all-invalid PTEs. -/
def create_process (s : SimState) (pages : Nat) : Nat × SimState :=
  let pid := freshPid s.procs
  (pid, { s with procs := s.procs ++
      [(pid, { pages_needed := pages, page_table := List.replicate pages PTE.initial })] })

/-- Modelled from the spec: `terminate_process(pid)`: release the process's frames, purge its TLB
entries and bookkeeping, drop its page table (spec §3 lifecycle, §6). -/
def terminate_process (s : SimState) (pid : Nat) : SimState :=
  { s with
      procs := aremove s.procs pid
      frames := s.frames.map (fun occ =>
        match occ with
        | some (p, pg) => if p = pid then none else some (p, pg)
        | none => none)
      tlb := tlbInvalidateProcess s.tlb pid
      fifoQueue := s.fifoQueue.filter (fun k => k.1 ≠ pid)
      lruOrder := s.lruOrder.filter (fun k => k.1 ≠ pid) }

/-- Modelled from the spec: `set_algorithm(name)`: switch the active policy; resident pages and
occupancy bookkeeping survive the switch (spec §6). -/
def set_algorithm (s : SimState) (a : Algo) : SimState :=
  { s with algo := a }

/-- Modelled from the spec: hit ratio (spec §4.6): `1 - page_faults / memory_accesses`, defined as 1
when there are no accesses. -/
def hit_ratio (s : SimState) : ℚ :=
  if s.memory_accesses = 0 then 1
  else 1 - (s.page_faults : ℚ) / (s.memory_accesses : ℚ)

/-- Modelled from the spec: the read-only snapshot `memory_state()` returns (the fields the claims
reference: process count, fault and access counters, the TLB, the active
policy). -/
structure MemoryStateView where
  num_processes : Nat
  page_faults : Nat
  memory_accesses : Nat
  tlb : List ((Nat × Nat) × Nat)
  current_algorithm : Algo
deriving DecidableEq, Repr

/-- Modelled from the spec: project the snapshot out of a state. -/
def memory_state (s : SimState) : MemoryStateView :=
  ⟨s.procs.length, s.page_faults, s.memory_accesses, s.tlb, s.algo⟩

/-- Modelled from the spec: the mutating operations of the external interface (spec §6). -/
inductive Op
  | create (pages : Nat)
  | terminate (pid : Nat)
  | translate (pid va : Nat)
  | setAlgo (a : Algo)
  | reset
deriving DecidableEq, Repr

/-- Modelled from the spec: apply one operation. A failing `translate` recovers locally and leaves
the state unchanged (spec §7); `reset` clears everything, keeping the frame
pool capacity. -/
def applyOp (s : SimState) : Op → SimState
  | .create pages => (create_process s pages).2
  | .terminate pid => terminate_process s pid
  | .translate pid va =>
      match translate_address s pid va with
      | .ok (_, s') => s'
      | .error _ => s
  | .setAlgo a => set_algorithm s a
  | .reset => initState s.frames.length

/-- Modelled from the spec: run a sequence of interface operations. -/
def runOps (s : SimState) : List Op → SimState
  | [] => s
  | op :: rest => runOps (applyOp s op) rest

/-! ## Replay and the comparison harness (spec §4.6) -/

/-- Modelled from the spec: replay a list of `(pid, virtual_address)` accesses in order; a failing
access reports a structured failure and leaves the state unchanged
(spec §7). -/
def replaySeq (s : SimState) : List (Nat × Nat) → SimState
  | [] => s
  | (pid, va) :: rest =>
      match translate_address s pid va with
      | .ok (_, s') => replaySeq s' rest
      | .error _ => replaySeq s rest

/-- Modelled from the spec: a standalone replay of `seqs` under policy `a`: a fresh default-capacity
instance with the given future-access hint, policy set, then the accesses
replayed in order. -/
def standaloneReplay (a : Algo) (fut seqs : List (Nat × Nat)) : SimState :=
  replaySeq { set_algorithm (initState defaultNumFrames) a with future := fut } seqs

/-- Modelled from the spec: per-policy figures reported by the comparison harness (spec §4.6). -/
structure CompareStats where
  page_faults : Nat
  accesses : Nat
  fault_rate : ℚ
  hit_rate : ℚ
deriving DecidableEq, Repr

/-- Modelled from the spec: `compare_algorithms` (§4.6) — the backend source
is not under `src/`. For each policy it resets a fresh simulation instance,
replays `seqs` in order and reports `{page_faults, accesses, fault_rate,
hit_rate}`; each policy run is fully independent. -/
def compare_algorithms (algos : List Algo) (fut seqs : List (Nat × Nat)) :
    List (Algo × CompareStats) :=
  algos.map (fun a =>
    let s := standaloneReplay a fut seqs
    (a, { page_faults := s.page_faults
          accesses := s.memory_accesses
          fault_rate := if s.memory_accesses = 0 then 0
            else (s.page_faults : ℚ) / (s.memory_accesses : ℚ)
          hit_rate := hit_ratio s }))

end VMSim

namespace AppJs

/-! ## Frontend logic, translated from `src/frontend/src/App.js` -/

open VMSim

/-- The access patterns `runBenchmark` generates (App.js lines 126–144):
the keys of `benchmarkSequences`, iterated in order. -/
def benchmarkPatterns : List String := ["sequential", "random", "locality"]

/-- The algorithms `runBenchmark` compares (App.js line 147). -/
def benchmarkAlgorithms : List String := ["FIFO", "LRU", "Clock"]

/-- The algorithm buttons of the UI (App.js line 794). -/
def selectableAlgorithms : List String := ["FIFO", "LRU", "Clock", "Optimal"]

/-- The deterministic sequential benchmark pattern (App.js lines 132–134):
`[1, i * 0x1000]` for `i = 0 .. 19`. -/
def benchmarkSequential : List (Nat × Nat) :=
  (List.range 20).map (fun i => (1, i * 0x1000))

/-- The page count of the single process each benchmark cell creates
(App.js line 155: `create_process` with `pages: 8`). -/
def benchmarkProcessPages : Nat := 8

/-- One recorded benchmark cell (App.js lines 170–182): the stats on
success, or zeroed stats plus the error message when the replay threw. -/
structure BenchCellStats where
  page_faults : Nat
  hit_ratio : ℚ
  execution_time : ℚ
  error : Option String
deriving DecidableEq, Repr

/-- One (pattern, algorithm) cell of `runBenchmark` (App.js lines 153–182):
the body (reset, create_process, set_algorithm, the replay and the
`memory_state` readback — abstracted as `run`, whose error value is a thrown
exception) sits inside a per-cell try/catch; a throw records
`page_faults=0, hit_ratio=0, execution_time=0` with the error message. -/
def runBenchmarkCell (run : String → String → Except String (Nat × ℚ × ℚ))
    (pattern algorithm : String) : BenchCellStats :=
  match run pattern algorithm with
  | .ok (pf, hr, t) =>
      { page_faults := pf, hit_ratio := hr, execution_time := t, error := none }
  | .error msg =>
      { page_faults := 0, hit_ratio := 0, execution_time := 0, error := some msg }

/-- The full benchmark matrix (App.js lines 146–184): every pattern crossed
with every algorithm, each cell guarded by its own try/catch. -/
def runBenchmarkMatrix (run : String → String → Except String (Nat × ℚ × ℚ)) :
    List (String × List (String × BenchCellStats)) :=
  benchmarkPatterns.map (fun p =>
    (p, benchmarkAlgorithms.map (fun a => (a, runBenchmarkCell run p a))))

/-- One benchmark cell against the modelled backend, threading the backend
state: reset, `create_process(pages=8)`, `set_algorithm(algorithm)`, then the
replay (App.js lines 154–165), returning the recorded
`(page_faults, hit_ratio)` (lines 170–174) and the backend state the next
cell starts from. -/
def benchCellFrom (s : SimState) (a : Algo) (seqs : List (Nat × Nat)) :
    (Nat × ℚ) × SimState :=
  let s1 := (create_process (applyOp s .reset) benchmarkProcessPages).2
  let s3 := replaySeq (set_algorithm s1 a) seqs
  ((s3.page_faults, hit_ratio s3), s3)

/-- The stats a benchmark cell records when run on a fresh `n`-frame
backend. -/
def benchCellPure (n : Nat) (a : Algo) (seqs : List (Nat × Nat)) : Nat × ℚ :=
  (benchCellFrom (initState n) a seqs).1

/-- A list of benchmark cells run in order against one backend, each cell
seeing the state the previous cell left behind. -/
def runCellsFrom (s : SimState) : List (Algo × List (Nat × Nat)) → List (Nat × ℚ)
  | [] => []
  | (a, seqs) :: rest =>
      let r := benchCellFrom s a seqs
      r.1 :: runCellsFrom r.2 rest

/-- The frontend component state `resetSimulator` touches (App.js lines
17–48 state hooks, lines 400–440 reset handler). -/
structure FrontendState where
  memoryState : Option MemoryStateView
  currentAlgorithm : String
  selectedProcess : String
  virtualAddress : String
  translationResult : Option TranslationResult
  isRunning : Bool
  demoResults : List String
  algorithmComparison : Option (List (Algo × CompareStats))
  report : Option String
  workingSets : Option String
  tlbState : Option (List ((Nat × Nat) × Nat))
  showComparison : Bool
  showReport : Bool
  showTlb : Bool
  showWorkingSets : Bool
  showRealTimeMonitor : Bool
  showBenchmark : Bool
  showSystemResources : Bool
  benchmarkResults : Option (List (String × List (String × BenchCellStats)))
  error : Option String
deriving Repr

/-- The success branch of `resetSimulator` (App.js lines 409–435): store the
fresh memory state and clear every cached result, showing FIFO as the
current algorithm. -/
def resetSimulator (fs : FrontendState) (ms : MemoryStateView) : FrontendState :=
  { fs with
      memoryState := some ms
      translationResult := none
      demoResults := []
      currentAlgorithm := "FIFO"
      selectedProcess := ""
      virtualAddress := ""
      algorithmComparison := none
      report := none
      workingSets := none
      tlbState := none
      showComparison := false
      showReport := false
      showTlb := false
      showWorkingSets := false
      showRealTimeMonitor := false
      showBenchmark := false
      showSystemResources := false
      benchmarkResults := none
      error := none
      isRunning := false }

/-- The algorithm-efficiency percentage of `calculateSystemResources`
(App.js line 69): `stats.hit_ratio ? stats.hit_ratio * 100 : 0` — a falsy
(zero) hit ratio yields 0, otherwise the ratio times 100. -/
def algorithmEfficiency (hr : ℚ) : ℚ :=
  if hr = 0 then 0 else hr * 100

/-- The hit-ratio percentage rendered by `renderStats` (App.js line 734):
`stats.hit_ratio * 100`. -/
def hitRatioPercent (hr : ℚ) : ℚ := hr * 100

/-! ## `parseInt(s, 16)` (App.js line 365)

`translateAddress` transmits `parseInt(virtualAddress, 16)`. The JavaScript
built-in with radix 16 skips leading whitespace, accepts an optional
`0x`/`0X` prefix, reads the maximal prefix of hexadecimal digits
(case-insensitive) and returns NaN (modelled as `none`) when no digit is
read. -/

/-- Value of one hexadecimal digit. -/
def hexDigitVal (c : Char) : Option Nat :=
  if '0' ≤ c ∧ c ≤ '9' then some (c.toNat - '0'.toNat)
  else if 'a' ≤ c ∧ c ≤ 'f' then some (c.toNat - 'a'.toNat + 10)
  else if 'A' ≤ c ∧ c ≤ 'F' then some (c.toNat - 'A'.toNat + 10)
  else none

/-- `true` on a hexadecimal digit. -/
def isHexDigitB (c : Char) : Bool := (hexDigitVal c).isSome

/-- `true` on the whitespace `parseInt` skips (the common forms). -/
def isSpaceB (c : Char) : Bool :=
  c = ' ' ∨ c = '\t' ∨ c = '\n' ∨ c = '\r'

/-- Base-16 value of a digit string (most significant first). -/
def hexVal (cs : List Char) : Nat :=
  cs.foldl (fun acc c => 16 * acc + (hexDigitVal c).getD 0) 0

/-- Strip the optional `0x`/`0X` prefix `parseInt(·, 16)` accepts. -/
def jsStripHexPrefix (cs : List Char) : List Char :=
  if cs.take 2 = ['0', 'x'] ∨ cs.take 2 = ['0', 'X'] then cs.drop 2 else cs

/-- Read the maximal hexadecimal-digit prefix; NaN (`none`) when empty. -/
def jsParseHexTail (cs : List Char) : Option Nat :=
  if (cs.takeWhile isHexDigitB).isEmpty then none
  else some (hexVal (cs.takeWhile isHexDigitB))

/-- JavaScript `parseInt(·, 16)` on the character list of the input. -/
def jsParseIntHexChars (cs : List Char) : Option Nat :=
  jsParseHexTail (jsStripHexPrefix (cs.dropWhile isSpaceB))

/-- The integer `translateAddress` transmits as `virtual_address` for a
user-entered string (App.js line 365: `parseInt(virtualAddress, 16)`). -/
def translateAddressPayload (s : String) : Option Nat :=
  jsParseIntHexChars s.data

/-- A request oracle whose every call throws, standing for a benchmark run
against an unreachable backend. -/
def benchFailureOracle : String → String → Except String (Nat × ℚ × ℚ) :=
  fun _ _ => .error "Network Error"

/-- The backend state every benchmark cell replays against: a fresh
default-capacity simulator holding the single 8-page process the cell
creates (App.js lines 154–155). -/
def benchProcState : SimState :=
  (create_process (initState defaultNumFrames) benchmarkProcessPages).2

/-- The default-capacity simulator holding one freshly created 4-page
process — the end-to-end scenario of the spec (§8). -/
def c1DemoState : SimState := (create_process (initState defaultNumFrames) 4).2

/-- A capacity-2 frame pool after one 3-page process loaded pages A = 0 and
B = 1 in order (spec §8 FIFO scenario). -/
def fifoCap2Loaded : SimState :=
  runOps (initState 2) [.create 3, .translate 1 0, .translate 1 0x1000]

/-- The same pool after page C = 2 is loaded into the full pool. -/
def fifoCap2After : SimState := applyOp fifoCap2Loaded (.translate 1 0x2000)

end AppJs

namespace VMSim

/-! ## Invariants (spec §8) -/

/-- Registry well-formedness: every page table has exactly `pages_needed`
entries (spec §3: unique keys `0 .. pages_needed`). -/
def WF (s : SimState) : Prop :=
  ∀ e ∈ s.procs, e.2.page_table.length = e.2.pages_needed

/-- The TLB never holds a stale frame (spec §8): for every TLB entry
`(pid, page) → frame`, the corresponding PTE is valid and its frame field
equals that frame. -/
def TLBConsistent (s : SimState) : Prop :=
  ∀ e ∈ s.tlb,
    (getPTE s e.1.1 e.1.2).valid = true ∧ (getPTE s e.1.1 e.1.2).frame = some e.2

/-- The fault counter never exceeds the access counter (spec §3 statistics:
monotonic counters; every fault is an access). -/
def FaultsLeAccesses (s : SimState) : Prop :=
  s.page_faults ≤ s.memory_accesses

instance (s : SimState) : Decidable (WF s) := by
  unfold WF
  infer_instance

instance (s : SimState) : Decidable (TLBConsistent s) := by
  unfold TLBConsistent
  infer_instance

instance (s : SimState) : Decidable (FaultsLeAccesses s) := by
  unfold FaultsLeAccesses
  infer_instance

/-- The combined reachable-state invariant: well-formed registry, consistent
TLB, and faults bounded by accesses. -/
def Inv (s : SimState) : Prop := WF s ∧ TLBConsistent s ∧ FaultsLeAccesses s

/-- What victim selection may not change: the TLB, the frame pool, the fault
and access counters, every PTE's valid/frame mapping, every process's page
count, and well-formedness. (Selection may only advance hands and flip
referenced bits.) -/
def StepView (s s' : SimState) : Prop :=
  s'.tlb = s.tlb ∧ s'.frames = s.frames ∧
  s'.page_faults = s.page_faults ∧ s'.memory_accesses = s.memory_accesses ∧
  (∀ p g, (getPTE s' p g).valid = (getPTE s p g).valid ∧
    (getPTE s' p g).frame = (getPTE s p g).frame) ∧
  (∀ p, (alookup s'.procs p).map Proc.pages_needed =
    (alookup s.procs p).map Proc.pages_needed) ∧
  (WF s → WF s')

/-! ## Association-list lemmas -/

theorem alookup_mem {β : Type} {l : List (Nat × β)} {k : Nat} {v : β}
    (h : alookup l k = some v) : (k, v) ∈ l := by
  induction l with
  | nil => simp [alookup] at h
  | cons e rest ih =>
      obtain ⟨k0, v0⟩ := e
      simp only [alookup] at h
      split at h
      · rename_i hk
        injection h with hv
        subst hv; subst hk
        exact List.mem_cons_self _ _
      · exact List.mem_cons_of_mem _ (ih h)

theorem alookup_aupdate_self {β : Type} {l : List (Nat × β)} {k : Nat} {v0 : β}
    (v : β) (h : alookup l k = some v0) : alookup (aupdate l k v) k = some v := by
  induction l with
  | nil => simp [alookup] at h
  | cons e rest ih =>
      obtain ⟨k0, v0'⟩ := e
      simp only [alookup] at h
      by_cases hk : k0 = k
      · simp [aupdate, alookup, hk]
      · rw [if_neg hk] at h
        simp [aupdate, alookup, hk, ih h]

theorem alookup_aupdate_ne {β : Type} (l : List (Nat × β)) {k k' : Nat}
    (v : β) (h : k ≠ k') : alookup (aupdate l k v) k' = alookup l k' := by
  induction l with
  | nil => rfl
  | cons e rest ih =>
      obtain ⟨k0, v0⟩ := e
      by_cases hk : k0 = k
      · subst hk
        have hk' : ¬ (k0 = k') := fun hh => h hh
        simp [aupdate, alookup, hk']
      · simp [aupdate, alookup, hk, ih]

theorem mem_aupdate {β : Type} {l : List (Nat × β)} {k : Nat} {v : β}
    {e : Nat × β} (h : e ∈ aupdate l k v) : e ∈ l ∨ (e.1 = k ∧ e.2 = v) := by
  induction l with
  | nil => simp [aupdate] at h
  | cons e0 rest ih =>
      obtain ⟨k0, v0⟩ := e0
      by_cases hk : k0 = k
      · rw [aupdate, if_pos hk] at h
        rcases List.mem_cons.mp h with h1 | h1
        · right; subst h1; exact ⟨hk, rfl⟩
        · left; exact List.mem_cons_of_mem _ h1
      · rw [aupdate, if_neg hk] at h
        rcases List.mem_cons.mp h with h1 | h1
        · left; subst h1; exact List.mem_cons_self _ _
        · rcases ih h1 with h2 | h2
          · left; exact List.mem_cons_of_mem _ h2
          · right; exact h2

theorem alookup_append_left {β : Type} {l : List (Nat × β)} {k : Nat} {v : β}
    (l2 : List (Nat × β)) (h : alookup l k = some v) :
    alookup (l ++ l2) k = some v := by
  induction l with
  | nil => simp [alookup] at h
  | cons e rest ih =>
      obtain ⟨k0, v0⟩ := e
      simp only [alookup] at h
      by_cases hk : k0 = k
      · rw [if_pos hk] at h
        injection h with hv
        simp [alookup, hk, hv]
      · rw [if_neg hk] at h
        simp [alookup, hk, ih h]

theorem alookup_aremove_ne {β : Type} (l : List (Nat × β)) {k k' : Nat}
    (h : k' ≠ k) : alookup (aremove l k) k' = alookup l k' := by
  induction l with
  | nil => rfl
  | cons e rest ih =>
      obtain ⟨k0, v0⟩ := e
      by_cases hk : k0 = k
      · have hk' : ¬ (k0 = k') := fun hh => h (hk ▸ hh ▸ rfl)
        rw [aremove, if_pos hk, alookup, if_neg hk', ih]
      · rw [aremove, if_neg hk, alookup, alookup]
        by_cases hk' : k0 = k'
        · rw [if_pos hk', if_pos hk']
        · rw [if_neg hk', if_neg hk', ih]

theorem mem_aremove {β : Type} {l : List (Nat × β)} {k : Nat} {e : Nat × β}
    (h : e ∈ aremove l k) : e ∈ l := by
  induction l with
  | nil => simp [aremove] at h
  | cons e0 rest ih =>
      obtain ⟨k0, v0⟩ := e0
      by_cases hk : k0 = k
      · rw [aremove, if_pos hk] at h
        exact List.mem_cons_of_mem _ (ih h)
      · rw [aremove, if_neg hk] at h
        rcases List.mem_cons.mp h with h1 | h1
        · subst h1; exact List.mem_cons_self _ _
        · exact List.mem_cons_of_mem _ (ih h1)

/-! ## TLB lemmas -/

theorem tlbLookup_mem {l : List ((Nat × Nat) × Nat)} {k : Nat × Nat} {f : Nat}
    (h : tlbLookup l k = some f) : (k, f) ∈ l := by
  induction l with
  | nil => simp [tlbLookup] at h
  | cons e rest ih =>
      obtain ⟨k0, f0⟩ := e
      simp only [tlbLookup] at h
      split at h
      · rename_i hk
        injection h with hf
        subst hf; subst hk
        exact List.mem_cons_self _ _
      · exact List.mem_cons_of_mem _ (ih h)

theorem mem_tlbTrim {l : List ((Nat × Nat) × Nat)} {e : (Nat × Nat) × Nat}
    (h : e ∈ tlbTrim l) : e ∈ l :=
  List.mem_of_mem_drop h

theorem mem_tlbInsert {l : List ((Nat × Nat) × Nat)} {key : Nat × Nat} {f : Nat}
    {e : (Nat × Nat) × Nat} (h : e ∈ tlbInsert l key f) :
    (e ∈ l ∧ e.1 ≠ key) ∨ e = (key, f) := by
  unfold tlbInsert at h
  have h2 := mem_tlbTrim h
  rcases List.mem_append.mp h2 with h3 | h3
  · left
    have h4 := List.mem_filter.mp h3
    refine ⟨h4.1, ?_⟩
    simpa using h4.2
  · right
    simpa using h3

theorem tlbLookup_append_keyfree {l1 : List ((Nat × Nat) × Nat)}
    {k : Nat × Nat} {f : Nat} (h : ∀ e ∈ l1, e.1 ≠ k) :
    tlbLookup (l1 ++ [(k, f)]) k = some f := by
  induction l1 with
  | nil => simp [tlbLookup]
  | cons e rest ih =>
      have he : e.1 ≠ k := h e (List.mem_cons_self _ _)
      obtain ⟨k0, f0⟩ := e
      simp only [List.cons_append, tlbLookup, if_neg he]
      exact ih (fun e' he' => h e' (List.mem_cons_of_mem _ he'))

theorem tlbLookup_tlbInsert_self (l : List ((Nat × Nat) × Nat))
    (key : Nat × Nat) (f : Nat) : tlbLookup (tlbInsert l key f) key = some f := by
  unfold tlbInsert tlbTrim
  have hlen : (l.filter (fun e => e.1 ≠ key) ++ [(key, f)]).length - tlbCapacity ≤
      (l.filter (fun e => e.1 ≠ key)).length := by
    rw [List.length_append]
    simp only [List.length_cons, List.length_nil]
    unfold tlbCapacity
    omega
  rw [List.drop_append_of_le_length hlen]
  apply tlbLookup_append_keyfree
  intro e he
  have h1 : e ∈ l.filter (fun e => e.1 ≠ key) := List.mem_of_mem_drop he
  have h2 := List.mem_filter.mp h1
  simpa using h2.2

theorem mem_tlbInvalidate {l : List ((Nat × Nat) × Nat)} {key : Nat × Nat}
    {e : (Nat × Nat) × Nat} (h : e ∈ tlbInvalidate l key) : e ∈ l ∧ e.1 ≠ key := by
  have h1 := List.mem_filter.mp h
  exact ⟨h1.1, by simpa using h1.2⟩

theorem mem_tlbInvalidateProcess {l : List ((Nat × Nat) × Nat)} {p : Nat}
    {e : (Nat × Nat) × Nat} (h : e ∈ tlbInvalidateProcess l p) :
    e ∈ l ∧ e.1.1 ≠ p := by
  have h1 := List.mem_filter.mp h
  exact ⟨h1.1, by simpa using h1.2⟩

/-! ## Frame-pool lemmas -/

theorem findFreeFrame_spec {l : List (Option (Nat × Nat))} {i : Nat}
    (h : findFreeFrame l = some i) : l[i]? = some none := by
  induction l generalizing i with
  | nil => simp [findFreeFrame] at h
  | cons o rest ih =>
      cases o with
      | none =>
          simp only [findFreeFrame, Option.some.injEq] at h
          subst h
          simp
      | some occ =>
          simp only [findFreeFrame, Option.map_eq_some'] at h
          obtain ⟨j, hj, hi⟩ := h
          subst hi
          simpa using ih hj

/-! ## setPTE / getPTE lemmas -/

theorem setPTE_fields (s : SimState) (pid page : Nat) (pte : PTE) :
    (setPTE s pid page pte).tlb = s.tlb ∧
    (setPTE s pid page pte).frames = s.frames ∧
    (setPTE s pid page pte).algo = s.algo ∧
    (setPTE s pid page pte).fifoQueue = s.fifoQueue ∧
    (setPTE s pid page pte).lruOrder = s.lruOrder ∧
    (setPTE s pid page pte).clockHand = s.clockHand ∧
    (setPTE s pid page pte).future = s.future ∧
    (setPTE s pid page pte).page_faults = s.page_faults ∧
    (setPTE s pid page pte).memory_accesses = s.memory_accesses ∧
    (setPTE s pid page pte).tlb_hits = s.tlb_hits ∧
    (setPTE s pid page pte).tlb_misses = s.tlb_misses := by
  unfold setPTE
  cases alookup s.procs pid <;> exact ⟨rfl, rfl, rfl, rfl, rfl, rfl, rfl, rfl, rfl, rfl, rfl⟩

/-- `pages_needed` of every process survives a PTE rewrite. -/
theorem pagesNeeded_setPTE (s : SimState) (pid page : Nat) (pte : PTE) (p : Nat) :
    (alookup (setPTE s pid page pte).procs p).map Proc.pages_needed =
      (alookup s.procs p).map Proc.pages_needed := by
  unfold setPTE
  cases h : alookup s.procs pid with
  | none => rfl
  | some pr =>
      by_cases hp : pid = p
      · subst hp
        rw [alookup_aupdate_self _ h, h]
        rfl
      · rw [alookup_aupdate_ne _ _ hp]

/-- A PTE rewrite changes the view of exactly one (pid, page), and only when
it lands in range of a registered page table. -/
theorem getPTE_setPTE_cases (s : SimState) (pid page : Nat) (pte : PTE)
    (p g : Nat) :
    getPTE (setPTE s pid page pte) p g = getPTE s p g ∨
    ((p, g) = (pid, page) ∧ getPTE (setPTE s pid page pte) p g = pte) := by
  unfold setPTE
  cases h : alookup s.procs pid with
  | none => left; rfl
  | some pr =>
      by_cases hp : p = pid
      · subst hp
        have h1 : alookup (aupdate s.procs p
            { pr with page_table := pr.page_table.set page pte }) p =
            some { pr with page_table := pr.page_table.set page pte } :=
          alookup_aupdate_self _ h
        by_cases hg : g = page
        · subst hg
          by_cases hlen : g < pr.page_table.length
          · right
            refine ⟨rfl, ?_⟩
            show getPTE _ p g = pte
            unfold getPTE
            rw [h1]
            simp only [List.getD_eq_getElem?_getD, List.getElem?_set_eq_of_lt _ hlen]
            rfl
          · left
            show getPTE _ p g = getPTE s p g
            unfold getPTE
            rw [h1, h]
            simp only [List.set_eq_of_length_le (Nat.le_of_not_lt hlen)]
        · left
          show getPTE _ p g = getPTE s p g
          unfold getPTE
          rw [h1, h]
          simp only [List.getD_eq_getElem?_getD]
          rw [List.getElem?_set_ne (fun hh => hg hh.symm)]
      · left
        show getPTE _ p g = getPTE s p g
        unfold getPTE
        rw [alookup_aupdate_ne _ _ (fun hh => hp hh.symm)]

/-- Rewriting an in-range PTE of a registered process makes `getPTE` return
exactly the new entry. -/
theorem getPTE_setPTE_self {s : SimState} {pid page : Nat} {pr : Proc}
    (pte : PTE) (h : alookup s.procs pid = some pr)
    (hlen : page < pr.page_table.length) :
    getPTE (setPTE s pid page pte) pid page = pte := by
  unfold setPTE
  rw [h]
  unfold getPTE
  rw [alookup_aupdate_self _ h]
  simp only [List.getD_eq_getElem?_getD, List.getElem?_set_eq_of_lt _ hlen]
  rfl

theorem WF_setPTE {s : SimState} (pid page : Nat) (pte : PTE) (hWF : WF s) :
    WF (setPTE s pid page pte) := by
  unfold setPTE
  cases h : alookup s.procs pid with
  | none => exact hWF
  | some pr =>
      intro e he
      rcases mem_aupdate he with h1 | h1
      · exact hWF e h1
      · obtain ⟨e1, e2⟩ := e
        simp only at h1
        rw [h1.2]
        simp only [List.length_set]
        exact hWF (pid, pr) (alookup_mem h)

/-! ## Views preserved by the policy bookkeeping -/

theorem stepView_refl {s : SimState} : StepView s s :=
  ⟨rfl, rfl, rfl, rfl, fun _ _ => ⟨rfl, rfl⟩, fun _ => rfl, id⟩

theorem stepView_trans {s t u : SimState} (h1 : StepView s t)
    (h2 : StepView t u) : StepView s u := by
  obtain ⟨a1, b1, c1, d1, e1, f1, g1⟩ := h1
  obtain ⟨a2, b2, c2, d2, e2, f2, g2⟩ := h2
  refine ⟨a2.trans a1, b2.trans b1, c2.trans c1, d2.trans d1, ?_, ?_, fun hw => g2 (g1 hw)⟩
  · intro p g
    exact ⟨(e2 p g).1.trans (e1 p g).1, (e2 p g).2.trans (e1 p g).2⟩
  · intro p
    exact (f2 p).trans (f1 p)

theorem TLBConsistent_of_view {s s' : SimState} (htlb : s'.tlb = s.tlb)
    (hview : ∀ p g, (getPTE s' p g).valid = (getPTE s p g).valid ∧
      (getPTE s' p g).frame = (getPTE s p g).frame)
    (h : TLBConsistent s) : TLBConsistent s' := by
  intro e he
  rw [htlb] at he
  obtain ⟨h1, h2⟩ := h e he
  exact ⟨((hview _ _).1).trans h1, ((hview _ _).2).trans h2⟩

/-- A PTE rewrite that keeps valid and frame unchanged keeps every PTE
view unchanged. -/
theorem view_setPTE_refOnly {s : SimState} {pid page : Nat} {pte : PTE}
    (hvalid : pte.valid = (getPTE s pid page).valid)
    (hframe : pte.frame = (getPTE s pid page).frame) (p g : Nat) :
    (getPTE (setPTE s pid page pte) p g).valid = (getPTE s p g).valid ∧
    (getPTE (setPTE s pid page pte) p g).frame = (getPTE s p g).frame := by
  rcases getPTE_setPTE_cases s pid page pte p g with h | ⟨hk, h⟩
  · rw [h]
    exact ⟨rfl, rfl⟩
  · have hp : p = pid := congrArg Prod.fst hk
    have hg : g = page := congrArg Prod.snd hk
    subst hp
    subst hg
    rw [h]
    exact ⟨hvalid, hframe⟩

theorem StepView_setPTE_refOnly {s : SimState} {pid page : Nat} {pte : PTE}
    (hvalid : pte.valid = (getPTE s pid page).valid)
    (hframe : pte.frame = (getPTE s pid page).frame) :
    StepView s (setPTE s pid page pte) := by
  obtain ⟨h1, h2, _, h4, h5, h6, h7, h8, h9, _, _⟩ := setPTE_fields s pid page pte
  exact ⟨h1, h2, h8, h9, view_setPTE_refOnly hvalid hframe,
    pagesNeeded_setPTE s pid page pte, WF_setPTE pid page pte⟩

theorem clockScan_facts : ∀ {n : Nat} {s : SimState} {v : Nat × Nat}
    {s' : SimState}, clockScan s n = some (v, s') → StepView s s' := by
  intro n
  induction n with
  | zero => intro s v s' h; simp [clockScan] at h
  | succ n ih =>
      intro s v s' h
      unfold clockScan at h
      split at h
      · exact absurd h (by simp)
      · split at h
        · have hmid : StepView s { s with clockHand := s.clockHand % s.frames.length + 1 } :=
            ⟨rfl, rfl, rfl, rfl, fun _ _ => ⟨rfl, rfl⟩, fun _ => rfl, id⟩
          exact stepView_trans hmid (ih h)
        · rename_i vpid vpage _
          split at h
          · rename_i href
            have hmid : StepView s (clearRef s vpid vpage) :=
              StepView_setPTE_refOnly rfl rfl
            have hmid2 : StepView (clearRef s vpid vpage)
                { clearRef s vpid vpage with
                  clockHand := s.clockHand % s.frames.length + 1 } :=
              ⟨rfl, rfl, rfl, rfl, fun _ _ => ⟨rfl, rfl⟩, fun _ => rfl, id⟩
            exact stepView_trans (stepView_trans hmid hmid2) (ih h)
          · injection h with h1
            have h2 : s' = { s with clockHand := s.clockHand % s.frames.length + 1 } :=
              (congrArg Prod.snd h1).symm
            subst h2
            exact ⟨rfl, rfl, rfl, rfl, fun _ _ => ⟨rfl, rfl⟩, fun _ => rfl, id⟩

theorem selectVictim_facts {s : SimState} {v : Nat × Nat} {s' : SimState}
    (h : selectVictim s = some (v, s')) : StepView s s' := by
  unfold selectVictim at h
  cases halgo : s.algo with
  | FIFO =>
      rw [halgo] at h
      cases hq : s.fifoQueue with
      | nil => rw [hq] at h; exact absurd h (by simp)
      | cons v0 rest =>
          rw [hq] at h
          injection h with h1
          have h2 : s' = s := (congrArg Prod.snd h1).symm
          subst h2
          exact stepView_refl
  | LRU =>
      rw [halgo] at h
      rw [Option.map_eq_some'] at h
      obtain ⟨v0, _, h1⟩ := h
      have h2 : s' = s := (congrArg Prod.snd h1.symm)
      subst h2
      exact stepView_refl
  | Clock =>
      rw [halgo] at h
      exact clockScan_facts h
  | Optimal =>
      rw [halgo] at h
      rw [Option.map_eq_some'] at h
      obtain ⟨v0, _, h1⟩ := h
      have h2 : s' = s := (congrArg Prod.snd h1.symm)
      subst h2
      exact stepView_refl

/-! ## Eviction and fault service preserve the invariants -/

theorem evictKey_facts {s : SimState} {vkey : Nat × Nat} {vf : Nat}
    {s2 : SimState} (h : evictKey s vkey = .ok (vf, s2)) :
    s2.tlb = tlbInvalidate s.tlb vkey ∧
    s2.frames.length = s.frames.length ∧
    s2.page_faults = s.page_faults ∧
    s2.memory_accesses = s.memory_accesses ∧
    (∀ p g, (p, g) ≠ vkey →
      (getPTE s2 p g).valid = (getPTE s p g).valid ∧
      (getPTE s2 p g).frame = (getPTE s p g).frame) ∧
    (∀ p, (alookup s2.procs p).map Proc.pages_needed =
      (alookup s.procs p).map Proc.pages_needed) ∧
    (WF s → WF s2) := by
  unfold evictKey at h
  split at h
  · exact absurd h (by simp)
  · rename_i vf0 hframe
    injection h with h1
    obtain ⟨hvf, hs2⟩ := Prod.mk.injEq .. |>.mp h1
    subst hs2
    subst hvf
    obtain ⟨htlb, hframes, _, _, _, _, _, hpf, hma, _, _⟩ :=
      setPTE_fields s vkey.1 vkey.2
        { getPTE s vkey.1 vkey.2 with valid := false, frame := none }
    refine ⟨?_, ?_, hpf, hma, ?_, ?_, ?_⟩
    · show tlbInvalidate _ vkey = tlbInvalidate s.tlb vkey
      rw [htlb]
    · show (List.set _ _ none).length = s.frames.length
      rw [List.length_set, hframes]
    · intro p g hne
      rcases getPTE_setPTE_cases s vkey.1 vkey.2
          { getPTE s vkey.1 vkey.2 with valid := false, frame := none } p g with
        hc | ⟨hk, _⟩
      · constructor
        · show (getPTE (setPTE s vkey.1 vkey.2 _) p g).valid = _
          rw [hc]
        · show (getPTE (setPTE s vkey.1 vkey.2 _) p g).frame = _
          rw [hc]
      · exact absurd (hk.trans (Prod.mk.eta)) hne
    · intro p
      exact pagesNeeded_setPTE s vkey.1 vkey.2 _ p
    · intro hWF
      exact WF_setPTE _ _ _ hWF

theorem acquireFrame_facts {s : SimState} {f : Nat} {s1 : SimState}
    (h : acquireFrame s = .ok (f, s1)) :
    s1.frames.length = s.frames.length ∧
    s1.page_faults = s.page_faults ∧
    s1.memory_accesses = s.memory_accesses ∧
    (∀ p, (alookup s1.procs p).map Proc.pages_needed =
      (alookup s.procs p).map Proc.pages_needed) ∧
    (WF s → WF s1) ∧
    (TLBConsistent s → TLBConsistent s1) := by
  unfold acquireFrame at h
  split at h
  · injection h with h1
    obtain ⟨_, hs1⟩ := Prod.mk.injEq .. |>.mp h1
    subst hs1
    exact ⟨rfl, rfl, rfl, fun _ => rfl, id, id⟩
  · split at h
    · exact absurd h (by simp)
    · rename_i vkey sv hsel
      obtain ⟨htlbv, hframesv, hpfv, hmav, hviewv, hpagesv, hWFv⟩ :=
        selectVictim_facts hsel
      obtain ⟨htlb1, hframes1, hpf1, hma1, hview1, hpages1, hWF1⟩ :=
        evictKey_facts h
      refine ⟨?_, hpf1.trans hpfv, hma1.trans hmav, ?_, fun hw => hWF1 (hWFv hw), ?_⟩
      · rw [hframes1, hframesv]
      · intro p
        exact (hpages1 p).trans (hpagesv p)
      · intro hT
        have hTv : TLBConsistent sv := TLBConsistent_of_view htlbv hviewv hT
        intro e he
        rw [htlb1] at he
        obtain ⟨he1, hne⟩ := mem_tlbInvalidate he
        obtain ⟨hv1, hv2⟩ := hTv e he1
        have hne' : (e.1.1, e.1.2) ≠ vkey := by
          rw [Prod.mk.eta]
          exact hne
        obtain ⟨hq1, hq2⟩ := hview1 e.1.1 e.1.2 hne'
        exact ⟨hq1.trans hv1, hq2.trans hv2⟩

theorem tlbHitStep_facts (s : SimState) (pid page : Nat) (hWF : WF s)
    (hT : TLBConsistent s) :
    WF (tlbHitStep s pid page) ∧ TLBConsistent (tlbHitStep s pid page) ∧
    (tlbHitStep s pid page).frames.length = s.frames.length ∧
    (tlbHitStep s pid page).page_faults = s.page_faults ∧
    (tlbHitStep s pid page).memory_accesses = s.memory_accesses + 1 := by
  obtain ⟨htlb, hframes, _, _, _, _, _, hpf, hma, _, _⟩ :=
    setPTE_fields s pid page { getPTE s pid page with referenced := true }
  refine ⟨WF_setPTE _ _ _ hWF, ?_, ?_, ?_, ?_⟩
  · refine TLBConsistent_of_view ?_ ?_ hT
    · exact htlb
    · intro p g
      exact @view_setPTE_refOnly s pid page
        { getPTE s pid page with referenced := true } rfl rfl p g
  · show (setPTE s pid page _).frames.length = s.frames.length
    rw [hframes]
  · exact hpf
  · show (setPTE s pid page _).memory_accesses + 1 = s.memory_accesses + 1
    rw [hma]

theorem ptHitStep_facts (s : SimState) (pid page f : Nat) {pr : Proc}
    (hWF : WF s) (hT : TLBConsistent s)
    (hpr : alookup s.procs pid = some pr) (hlen : page < pr.page_table.length)
    (hvalid : (getPTE s pid page).valid = true)
    (hframe : (getPTE s pid page).frame = some f) :
    WF (ptHitStep s pid page f) ∧ TLBConsistent (ptHitStep s pid page f) ∧
    (ptHitStep s pid page f).frames.length = s.frames.length ∧
    (ptHitStep s pid page f).page_faults = s.page_faults ∧
    (ptHitStep s pid page f).memory_accesses = s.memory_accesses + 1 := by
  obtain ⟨htlb, hframes, _, _, _, _, _, hpf, hma, _, _⟩ :=
    setPTE_fields s pid page { getPTE s pid page with referenced := true }
  refine ⟨WF_setPTE _ _ _ hWF, ?_, ?_, ?_, ?_⟩
  · intro e he
    have he2 : e ∈ tlbInsert s.tlb (pid, page) f := by
      have hshow : (ptHitStep s pid page f).tlb =
          tlbInsert (setPTE s pid page
            { getPTE s pid page with referenced := true }).tlb (pid, page) f := rfl
      rw [hshow, htlb] at he
      exact he
    rcases mem_tlbInsert he2 with ⟨hmem, hne⟩ | hnew
    · obtain ⟨hv1, hv2⟩ := hT e hmem
      obtain ⟨hq1, hq2⟩ := @view_setPTE_refOnly s pid page
        { getPTE s pid page with referenced := true } rfl rfl e.1.1 e.1.2
      exact ⟨hq1.trans hv1, hq2.trans hv2⟩
    · have hk : e.1 = (pid, page) := congrArg Prod.fst hnew
      have hf : e.2 = f := congrArg Prod.snd hnew
      have hself : getPTE (ptHitStep s pid page f) e.1.1 e.1.2 =
          { getPTE s pid page with referenced := true } := by
        rw [hk]
        exact getPTE_setPTE_self _ hpr hlen
      rw [hself, hf]
      exact ⟨hvalid, hframe⟩
  · show (setPTE s pid page _).frames.length = s.frames.length
    rw [hframes]
  · exact hpf
  · show (setPTE s pid page _).memory_accesses + 1 = s.memory_accesses + 1
    rw [hma]

theorem faultLoadStep_facts (s1 : SimState) (pid page f : Nat) {pr1 : Proc}
    (hWF : WF s1) (hT : TLBConsistent s1)
    (hpr : alookup s1.procs pid = some pr1)
    (hlen : page < pr1.page_table.length) :
    WF (faultLoadStep s1 pid page f) ∧ TLBConsistent (faultLoadStep s1 pid page f) ∧
    (faultLoadStep s1 pid page f).frames.length = s1.frames.length ∧
    (faultLoadStep s1 pid page f).page_faults = s1.page_faults + 1 ∧
    (faultLoadStep s1 pid page f).memory_accesses = s1.memory_accesses + 1 := by
  obtain ⟨htlb, hframes, _, _, _, _, _, hpf, hma, _, _⟩ :=
    setPTE_fields s1 pid page
      { frame := some f, valid := true, dirty := false, referenced := true }
  refine ⟨WF_setPTE _ _ _ hWF, ?_, ?_, ?_, ?_⟩
  · intro e he
    have he2 : e ∈ tlbInsert s1.tlb (pid, page) f := by
      have hshow : (faultLoadStep s1 pid page f).tlb =
          tlbInsert (setPTE s1 pid page
            { frame := some f, valid := true, dirty := false,
              referenced := true }).tlb (pid, page) f := rfl
      rw [hshow, htlb] at he
      exact he
    rcases mem_tlbInsert he2 with ⟨hmem, hne⟩ | hnew
    · obtain ⟨hv1, hv2⟩ := hT e hmem
      rcases getPTE_setPTE_cases s1 pid page
          { frame := some f, valid := true, dirty := false, referenced := true }
          e.1.1 e.1.2 with hc | ⟨hk, _⟩
      · have hg1 : (getPTE (faultLoadStep s1 pid page f) e.1.1 e.1.2) =
            getPTE s1 e.1.1 e.1.2 := hc
        rw [hg1]
        exact ⟨hv1, hv2⟩
      · exact absurd (((Prod.mk.eta (p := e.1)).symm).trans hk) hne
    · have hk : e.1 = (pid, page) := congrArg Prod.fst hnew
      have hf : e.2 = f := congrArg Prod.snd hnew
      have hself : getPTE (faultLoadStep s1 pid page f) e.1.1 e.1.2 =
          { frame := some f, valid := true, dirty := false, referenced := true } := by
        rw [hk]
        exact getPTE_setPTE_self _ hpr hlen
      rw [hself, hf]
      exact ⟨rfl, rfl⟩
  · show ((setPTE s1 pid page _).frames.set f _).length = s1.frames.length
    rw [List.length_set, hframes]
  · show (setPTE s1 pid page _).page_faults + 1 = s1.page_faults + 1
    rw [hpf]
  · show (setPTE s1 pid page _).memory_accesses + 1 = s1.memory_accesses + 1
    rw [hma]

/-- The address translator preserves well-formedness, TLB consistency, the
frame-pool capacity, and the fault-vs-access counter relation. -/
theorem translate_preserves {s : SimState} {pid va : Nat}
    {r : TranslationResult} {s' : SimState} (hWF : WF s) (hT : TLBConsistent s)
    (h : translate_address s pid va = .ok (r, s')) :
    WF s' ∧ TLBConsistent s' ∧ s'.frames.length = s.frames.length ∧
    (FaultsLeAccesses s → FaultsLeAccesses s') := by
  unfold translate_address at h
  split at h
  · exact absurd h (by simp)
  · rename_i pr hpr
    split at h
    · rename_i hrange
      split at h
      · rename_i fhit htlbhit
        injection h with h1
        have hs' : s' = tlbHitStep s pid (va / pageSize) :=
          (congrArg Prod.snd h1).symm
        subst hs'
        obtain ⟨q1, q2, q3, q4, q5⟩ := tlbHitStep_facts s pid (va / pageSize) hWF hT
        refine ⟨q1, q2, q3, ?_⟩
        intro hle
        unfold FaultsLeAccesses at hle ⊢
        omega
      · split at h
        · rename_i hvalid
          split at h
          · exact absurd h (by simp)
          · rename_i f hframe
            injection h with h1
            have hs' : s' = ptHitStep s pid (va / pageSize) f :=
              (congrArg Prod.snd h1).symm
            subst hs'
            have hlen : va / pageSize < pr.page_table.length := by
              rw [hWF (pid, pr) (alookup_mem hpr)]
              exact hrange
            obtain ⟨q1, q2, q3, q4, q5⟩ :=
              ptHitStep_facts s pid (va / pageSize) f hWF hT hpr hlen hvalid hframe
            refine ⟨q1, q2, q3, ?_⟩
            intro hle
            unfold FaultsLeAccesses at hle ⊢
            omega
        · rename_i hinvalid
          split at h
          · exact absurd h (by simp)
          · rename_i f s1 hacq
            injection h with h1
            have hs' : s' = faultLoadStep s1 pid (va / pageSize) f :=
              (congrArg Prod.snd h1).symm
            subst hs'
            obtain ⟨a1, a2, a3, a4, a5, a6⟩ := acquireFrame_facts hacq
            have hpages : (alookup s1.procs pid).map Proc.pages_needed =
                some pr.pages_needed := by
              rw [a4 pid, hpr]
              rfl
            rw [Option.map_eq_some'] at hpages
            obtain ⟨pr1, hpr1, hpn1⟩ := hpages
            have hWF1 : WF s1 := a5 hWF
            have hT1 : TLBConsistent s1 := a6 hT
            have hlen1 : va / pageSize < pr1.page_table.length := by
              rw [hWF1 (pid, pr1) (alookup_mem hpr1), hpn1]
              exact hrange
            obtain ⟨q1, q2, q3, q4, q5⟩ :=
              faultLoadStep_facts s1 pid (va / pageSize) f hWF1 hT1 hpr1 hlen1
            refine ⟨q1, q2, q3.trans a1, ?_⟩
            intro hle
            unfold FaultsLeAccesses at hle ⊢
            rw [q4, q5, a2, a3]
            omega
    · exact absurd h (by simp)

/-! ## The combined invariant holds in every reachable state -/

theorem inv_initState (n : Nat) : Inv (initState n) := by
  refine ⟨?_, ?_, ?_⟩
  · intro e he
    simp [initState] at he
  · intro e he
    simp [initState] at he
  · exact Nat.le_refl 0

theorem inv_create {s : SimState} (pages : Nat) (h : Inv s) :
    Inv (create_process s pages).2 := by
  obtain ⟨hWF, hT, hF⟩ := h
  refine ⟨?_, ?_, hF⟩
  · intro e he
    rcases List.mem_append.mp he with h1 | h1
    · exact hWF e h1
    · have h2 : e = (freshPid s.procs,
          { pages_needed := pages, page_table := List.replicate pages PTE.initial }) := by
        simpa using h1
      rw [h2]
      simp [List.length_replicate]
  · intro e he
    obtain ⟨hv1, hv2⟩ := hT e he
    cases halk : alookup s.procs e.1.1 with
    | none =>
        exfalso
        unfold getPTE at hv1
        rw [halk] at hv1
        exact Bool.false_ne_true hv1
    | some pr =>
        have hsame : getPTE (create_process s pages).2 e.1.1 e.1.2 =
            getPTE s e.1.1 e.1.2 := by
          unfold getPTE
          show (match alookup (s.procs ++ _) e.1.1 with
            | none => PTE.initial
            | some pr => pr.page_table.getD e.1.2 PTE.initial) = _
          rw [alookup_append_left _ halk, halk]
        rw [hsame]
        exact ⟨hv1, hv2⟩

theorem inv_terminate {s : SimState} (pid : Nat) (h : Inv s) :
    Inv (terminate_process s pid) := by
  obtain ⟨hWF, hT, hF⟩ := h
  refine ⟨?_, ?_, hF⟩
  · intro e he
    exact hWF e (mem_aremove he)
  · intro e he
    obtain ⟨he1, hne⟩ := mem_tlbInvalidateProcess he
    obtain ⟨hv1, hv2⟩ := hT e he1
    have hsame : getPTE (terminate_process s pid) e.1.1 e.1.2 =
        getPTE s e.1.1 e.1.2 := by
      unfold getPTE
      show (match alookup (aremove s.procs pid) e.1.1 with
        | none => PTE.initial
        | some pr => pr.page_table.getD e.1.2 PTE.initial) = _
      rw [alookup_aremove_ne _ hne]
    rw [hsame]
    exact ⟨hv1, hv2⟩

theorem inv_applyOp {s : SimState} (op : Op) (h : Inv s) : Inv (applyOp s op) := by
  cases op with
  | create pages => exact inv_create pages h
  | terminate pid => exact inv_terminate pid h
  | translate pid va =>
      show Inv (match translate_address s pid va with
        | .ok (_, s') => s'
        | .error _ => s)
      cases htr : translate_address s pid va with
      | error e => exact h
      | ok pr =>
          obtain ⟨r, s'⟩ := pr
          obtain ⟨hWF, hT, hF⟩ := h
          obtain ⟨q1, q2, _, q4⟩ := translate_preserves hWF hT htr
          exact ⟨q1, q2, q4 hF⟩
  | setAlgo a => exact h
  | reset => exact inv_initState s.frames.length

theorem inv_runOps {s : SimState} (ops : List Op) (h : Inv s) :
    Inv (runOps s ops) := by
  induction ops generalizing s with
  | nil => exact h
  | cons op rest ih => exact ih (inv_applyOp op h)

/-- Replaying any access sequence keeps the invariant and the frame-pool
capacity. -/
theorem replay_facts : ∀ {seqs : List (Nat × Nat)} {s : SimState}, Inv s →
    Inv (replaySeq s seqs) ∧ (replaySeq s seqs).frames.length = s.frames.length := by
  intro seqs
  induction seqs with
  | nil => intro s h; exact ⟨h, rfl⟩
  | cons a rest ih =>
      intro s h
      obtain ⟨pid, va⟩ := a
      have hstep : replaySeq s ((pid, va) :: rest) =
          (match translate_address s pid va with
           | .ok (_, s') => replaySeq s' rest
           | .error _ => replaySeq s rest) := rfl
      cases htr : translate_address s pid va with
      | error e =>
          rw [hstep, htr]
          exact ih h
      | ok pr =>
          obtain ⟨r, s'⟩ := pr
          obtain ⟨hWF, hT, hF⟩ := h
          obtain ⟨q1, q2, q3, q4⟩ := translate_preserves hWF hT htr
          have hgoal := ih ⟨q1, q2, q4 hF⟩
          rw [hstep, htr]
          exact ⟨hgoal.1, hgoal.2.trans q3⟩

/-- The frame pool of a fresh simulator has exactly its capacity. -/
theorem initState_frames_length (n : Nat) : (initState n).frames.length = n := by
  simp [initState]

/-- Looking up the written process after a PTE rewrite. -/
theorem alookup_setPTE_self {s : SimState} {pid : Nat} {pr : Proc}
    (page : Nat) (pte : PTE) (h : alookup s.procs pid = some pr) :
    alookup (setPTE s pid page pte).procs pid =
      some { pr with page_table := pr.page_table.set page pte } := by
  unfold setPTE
  rw [h]
  exact alookup_aupdate_self _ h

/-- Bounds of the derived hit ratio under the counter invariant. -/
theorem hit_ratio_bounds {s : SimState} (h : FaultsLeAccesses s) :
    0 ≤ hit_ratio s ∧ hit_ratio s ≤ 1 := by
  unfold hit_ratio
  by_cases hma : s.memory_accesses = 0
  · rw [if_pos hma]
    norm_num
  · rw [if_neg hma]
    have hpos : (0 : ℚ) < (s.memory_accesses : ℚ) := by
      exact_mod_cast Nat.pos_of_ne_zero hma
    have hle : (s.page_faults : ℚ) ≤ (s.memory_accesses : ℚ) := by
      exact_mod_cast h
    have h1 : (s.page_faults : ℚ) / (s.memory_accesses : ℚ) ≤ 1 :=
      (div_le_one hpos).mpr hle
    have h0 : 0 ≤ (s.page_faults : ℚ) / (s.memory_accesses : ℚ) := by positivity
    constructor
    · linarith
    · linarith

end VMSim

namespace Claims

open VMSim AppJs

/-- C2: at every point between interface operations — that is, in every
state reachable by a sequence of operations from a fresh simulator of any
capacity — every TLB entry `(pid, page) → frame` has a valid corresponding
PTE whose frame field equals the cached frame; eviction, fault resolution
and process termination invalidate the cached entry within the same
operation, so the TLB never holds a stale frame. -/
theorem tlb_never_stale (n : Nat) (ops : List Op) :
    TLBConsistent (runOps (initState n) ops) :=
  (inv_runOps ops (inv_initState n)).2.1

/-- C5: in every reachable state, `hit_ratio` equals
`1 - page_faults / memory_accesses`, is 1 when there are no accesses, lies
in [0, 1], and both percentages the frontend derives from it
(`stats.hit_ratio * 100` in `renderStats` and the algorithm-efficiency value
of `calculateSystemResources`) lie in [0, 100]. -/
theorem hit_ratio_unit_interval (n : Nat) (ops : List Op) :
    (((runOps (initState n) ops).memory_accesses = 0 →
      hit_ratio (runOps (initState n) ops) = 1) ∧
     ((runOps (initState n) ops).memory_accesses ≠ 0 →
      hit_ratio (runOps (initState n) ops) =
        1 - ((runOps (initState n) ops).page_faults : ℚ) /
          ((runOps (initState n) ops).memory_accesses : ℚ))) ∧
    (0 ≤ hit_ratio (runOps (initState n) ops) ∧
     hit_ratio (runOps (initState n) ops) ≤ 1) ∧
    (0 ≤ hitRatioPercent (hit_ratio (runOps (initState n) ops)) ∧
     hitRatioPercent (hit_ratio (runOps (initState n) ops)) ≤ 100) ∧
    (0 ≤ algorithmEfficiency (hit_ratio (runOps (initState n) ops)) ∧
     algorithmEfficiency (hit_ratio (runOps (initState n) ops)) ≤ 100) := by
  have hF : FaultsLeAccesses (runOps (initState n) ops) :=
    (inv_runOps ops (inv_initState n)).2.2
  obtain ⟨h0, h1⟩ := hit_ratio_bounds hF
  refine ⟨⟨?_, ?_⟩, ⟨h0, h1⟩, ⟨?_, ?_⟩, ?_⟩
  · intro hma
    unfold hit_ratio
    rw [if_pos hma]
  · intro hma
    unfold hit_ratio
    rw [if_neg hma]
  · unfold hitRatioPercent
    positivity
  · unfold hitRatioPercent
    nlinarith
  · unfold algorithmEfficiency
    split
    · norm_num
    · constructor
      · positivity
      · nlinarith

/-- C6: `reset()` returns the fresh empty state — `memory_state()` right
after reset shows zero processes, zero page faults, zero memory accesses, an
empty TLB and FIFO active — and the frontend `resetSimulator` handler clears
every cached result and shows FIFO as the current algorithm. -/
theorem reset_clears_everything (s : SimState) (fs : FrontendState) :
    memory_state (applyOp s .reset) =
      { num_processes := 0, page_faults := 0, memory_accesses := 0,
        tlb := [], current_algorithm := .FIFO } ∧
    (resetSimulator fs (memory_state (applyOp s .reset))).currentAlgorithm = "FIFO" ∧
    (resetSimulator fs (memory_state (applyOp s .reset))).memoryState =
      some (memory_state (applyOp s .reset)) ∧
    (resetSimulator fs (memory_state (applyOp s .reset))).translationResult = none ∧
    (resetSimulator fs (memory_state (applyOp s .reset))).demoResults = [] ∧
    (resetSimulator fs (memory_state (applyOp s .reset))).algorithmComparison = none ∧
    (resetSimulator fs (memory_state (applyOp s .reset))).report = none ∧
    (resetSimulator fs (memory_state (applyOp s .reset))).workingSets = none ∧
    (resetSimulator fs (memory_state (applyOp s .reset))).tlbState = none ∧
    (resetSimulator fs (memory_state (applyOp s .reset))).benchmarkResults = none ∧
    (resetSimulator fs (memory_state (applyOp s .reset))).error = none ∧
    (resetSimulator fs (memory_state (applyOp s .reset))).isRunning = false :=
  ⟨rfl, rfl, rfl, rfl, rfl, rfl, rfl, rfl, rfl, rfl, rfl, rfl⟩

/-- C8: the sequential benchmark pattern is `[1, i * 0x1000]` for
`i = 0 .. 19`, so access `i` targets page `i` (page size 4096); the
benchmark's process has 8 pages, hence the 12 accesses with `i ≥ 8` target
pages outside its range and fail the translator's page-range check with
`InvalidPage`, while the first 8 are in range. -/
theorem sequential_benchmark_out_of_range :
    benchmarkSequential.length = 20 ∧
    benchmarkProcessPages = 8 ∧
    ((List.range 20).all (fun i =>
      decide ((benchmarkSequential.getD i (0, 0)).2 / pageSize = i))) = true ∧
    (benchmarkSequential.filter (fun ac =>
      decide (benchmarkProcessPages ≤ ac.2 / pageSize))).length = 12 ∧
    ((benchmarkSequential.take 8).all (fun ac =>
      decide (ac.2 / pageSize < benchmarkProcessPages))) = true ∧
    ((benchmarkSequential.drop 8).all (fun ac =>
      isInvalidPage (translate_address benchProcState ac.1 ac.2))) = true := by
  decide

/-- C9: the benchmark harness compares exactly FIFO, LRU and Clock: every
pattern row of every benchmark run carries results for precisely those three
algorithms, and never an Optimal cell, although Optimal is one of the four
selectable policies of the UI. -/
theorem benchmark_compares_three_policies :
    benchmarkAlgorithms = ["FIFO", "LRU", "Clock"] ∧
    "Optimal" ∉ benchmarkAlgorithms ∧
    "Optimal" ∈ selectableAlgorithms ∧
    ∀ (run : String → String → Except String (Nat × ℚ × ℚ))
      (pc : String × List (String × BenchCellStats)),
      pc ∈ runBenchmarkMatrix run → pc.2.map Prod.fst = benchmarkAlgorithms := by
  refine ⟨rfl, by decide, by decide, ?_⟩
  intro run pc hpc
  obtain ⟨p, hp, hpc2⟩ := List.mem_map.mp hpc
  rw [← hpc2]
  rw [List.map_map]
  show List.map id benchmarkAlgorithms = benchmarkAlgorithms
  exact List.map_id benchmarkAlgorithms

/-- C9 witness at the constantly-failing request oracle and the sequential
pattern row. -/
theorem benchmark_compares_three_policies_witness :
    ("sequential",
      benchmarkAlgorithms.map (fun a =>
        (a, runBenchmarkCell benchFailureOracle "sequential" a))).2.map Prod.fst =
      benchmarkAlgorithms :=
  benchmark_compares_three_policies.2.2.2 benchFailureOracle _
    (List.mem_map.mpr ⟨"sequential", by decide, rfl⟩)

/-- C3: every (pattern, algorithm) cell of the benchmark matrix is recorded
no matter which requests throw; a throwing cell is recorded as
`page_faults = 0`, `hit_ratio = 0`, `execution_time = 0` together with the
error message, and the rest of the matrix is still produced. -/
theorem benchmark_cell_error_isolation
    (run : String → String → Except String (Nat × ℚ × ℚ)) (p a : String)
    (hp : p ∈ benchmarkPatterns) (ha : a ∈ benchmarkAlgorithms) :
    ((runBenchmarkMatrix run).length = benchmarkPatterns.length ∧
     (p, benchmarkAlgorithms.map (fun a' => (a', runBenchmarkCell run p a'))) ∈
       runBenchmarkMatrix run ∧
     (a, runBenchmarkCell run p a) ∈
       benchmarkAlgorithms.map (fun a' => (a', runBenchmarkCell run p a'))) ∧
    (∀ msg, run p a = .error msg →
      runBenchmarkCell run p a =
        { page_faults := 0, hit_ratio := 0, execution_time := 0,
          error := some msg }) := by
  refine ⟨⟨List.length_map _ _, ?_, ?_⟩, ?_⟩
  · exact List.mem_map.mpr ⟨p, hp, rfl⟩
  · exact List.mem_map.mpr ⟨a, ha, rfl⟩
  · intro msg hmsg
    unfold runBenchmarkCell
    rw [hmsg]

/-- C1: in any well-formed, TLB-consistent state, the first translation of a
live process's in-range virtual address whose PTE is invalid (cold) page
faults with a TLB miss and is assigned frame `f`, the first free frame of
the pool; immediately re-translating the same `(pid, virtual_address)` is a
TLB hit without a fault at the identical physical address. -/
theorem cold_fault_then_tlb_hit (s : SimState) (pid va f : Nat) (pr : Proc)
    (hWF : WF s) (hT : TLBConsistent s)
    (hpr : alookup s.procs pid = some pr)
    (hrange : va / pageSize < pr.pages_needed)
    (hcold : (getPTE s pid (va / pageSize)).valid = false)
    (hfree : findFreeFrame s.frames = some f) :
    s.frames[f]? = some none ∧
    translate_address s pid va =
      .ok ({ physical_address := f * pageSize + va % pageSize, frame := f,
             page_fault := true, tlb_hit := false },
           faultLoadStep s pid (va / pageSize) f) ∧
    translate_address (faultLoadStep s pid (va / pageSize) f) pid va =
      .ok ({ physical_address := f * pageSize + va % pageSize, frame := f,
             page_fault := false, tlb_hit := true },
           tlbHitStep (faultLoadStep s pid (va / pageSize) f) pid (va / pageSize)) := by
  have hmiss : tlbLookup s.tlb (pid, va / pageSize) = none := by
    cases hlk : tlbLookup s.tlb (pid, va / pageSize) with
    | none => rfl
    | some f0 =>
        exfalso
        have hm := tlbLookup_mem hlk
        obtain ⟨hv, _⟩ := hT ((pid, va / pageSize), f0) hm
        rw [hcold] at hv
        exact Bool.false_ne_true hv
  have hacq : acquireFrame s = .ok (f, s) := by
    unfold acquireFrame
    rw [hfree]
  have htr1 : translate_address s pid va =
      .ok ({ physical_address := f * pageSize + va % pageSize, frame := f,
             page_fault := true, tlb_hit := false },
           faultLoadStep s pid (va / pageSize) f) := by
    simp [translate_address, hpr, hmiss, hcold, hacq, hrange]
  have hpr1 : alookup (faultLoadStep s pid (va / pageSize) f).procs pid =
      some { pr with page_table := pr.page_table.set (va / pageSize) (PTE.mk (some f) true false true) } :=
    alookup_setPTE_self (va / pageSize) (PTE.mk (some f) true false true) hpr
  have htlb1 : tlbLookup (faultLoadStep s pid (va / pageSize) f).tlb
      (pid, va / pageSize) = some f := by
    have hshow : (faultLoadStep s pid (va / pageSize) f).tlb =
        tlbInsert (setPTE s pid (va / pageSize)
          { frame := some f, valid := true, dirty := false,
            referenced := true }).tlb (pid, va / pageSize) f := rfl
    rw [hshow,
      (setPTE_fields s pid (va / pageSize)
        { frame := some f, valid := true, dirty := false, referenced := true }).1]
    exact tlbLookup_tlbInsert_self _ _ _
  have htr2 : translate_address (faultLoadStep s pid (va / pageSize) f) pid va =
      .ok ({ physical_address := f * pageSize + va % pageSize, frame := f,
             page_fault := false, tlb_hit := true },
           tlbHitStep (faultLoadStep s pid (va / pageSize) f) pid (va / pageSize)) := by
    simp [translate_address, hpr1, htlb1, hrange]
  exact ⟨findFreeFrame_spec hfree, htr1, htr2⟩

/-- C3 witness: at the constantly-failing oracle, the (random, LRU) cell is
present in the matrix and records zeroed stats plus the error message. -/
theorem benchmark_cell_error_isolation_witness :
    (((runBenchmarkMatrix benchFailureOracle).length = benchmarkPatterns.length ∧
      ("random", benchmarkAlgorithms.map (fun a' =>
        (a', runBenchmarkCell benchFailureOracle "random" a'))) ∈
        runBenchmarkMatrix benchFailureOracle ∧
      ("LRU", runBenchmarkCell benchFailureOracle "random" "LRU") ∈
        benchmarkAlgorithms.map (fun a' =>
          (a', runBenchmarkCell benchFailureOracle "random" a'))) ∧
     (∀ msg, benchFailureOracle "random" "LRU" = .error msg →
       runBenchmarkCell benchFailureOracle "random" "LRU" =
         { page_faults := 0, hit_ratio := 0, execution_time := 0,
           error := some msg })) :=
  benchmark_cell_error_isolation benchFailureOracle "random" "LRU"
    (by decide) (by decide)

/-- C1 witness: the spec's end-to-end scenario — a fresh 4-page process,
translating `0x0000` twice. -/
theorem cold_fault_then_tlb_hit_witness :
    c1DemoState.frames[0]? = some none ∧
    translate_address c1DemoState 1 0 =
      .ok ({ physical_address := 0 * pageSize + 0 % pageSize, frame := 0,
             page_fault := true, tlb_hit := false },
           faultLoadStep c1DemoState 1 (0 / pageSize) 0) ∧
    translate_address (faultLoadStep c1DemoState 1 (0 / pageSize) 0) 1 0 =
      .ok ({ physical_address := 0 * pageSize + 0 % pageSize, frame := 0,
             page_fault := false, tlb_hit := true },
           tlbHitStep (faultLoadStep c1DemoState 1 (0 / pageSize) 0) 1 (0 / pageSize)) :=
  cold_fault_then_tlb_hit c1DemoState 1 0 0 ⟨4, List.replicate 4 PTE.initial⟩
    (by decide) (by decide) (by decide) (by decide) (by decide) (by decide)

/-- C7: FIFO victim selection always takes the head of the single global
load-order queue; concretely, with pool capacity 2, loading pages A = 0,
B = 1, C = 2 of one process in order evicts A first. -/
theorem fifo_evicts_queue_head :
    (∀ s : SimState, s.algo = .FIFO →
      selectVictim s = s.fifoQueue.head?.map (fun v => (v, s))) ∧
    fifoCap2Loaded.fifoQueue = [(1, 0), (1, 1)] ∧
    findFreeFrame fifoCap2Loaded.frames = none ∧
    (getPTE fifoCap2Loaded 1 0).valid = true ∧
    (getPTE fifoCap2After 1 0).valid = false ∧
    (getPTE fifoCap2After 1 1).valid = true ∧
    (getPTE fifoCap2After 1 2).valid = true ∧
    (1, 0) ∉ residentPages fifoCap2After.frames ∧
    fifoCap2After.fifoQueue = [(1, 1), (1, 2)] := by
  refine ⟨?_, by decide, by decide, by decide, by decide, by decide, by decide,
    by decide, by decide⟩
  intro s h
  unfold selectVictim
  rw [h]
  cases hq : s.fifoQueue with
  | nil => rfl
  | cons v rest => rfl

/-- C7 witness: FIFO victim selection on a concrete state follows the queue
head. -/
theorem fifo_evicts_queue_head_witness :
    selectVictim fifoCap2Loaded =
      fifoCap2Loaded.fifoQueue.head?.map (fun v => (v, fifoCap2Loaded)) :=
  fifo_evicts_queue_head.1 fifoCap2Loaded (by decide)

/-- C4: every benchmark cell starts from reset, `create_process(pages=8)`
and `set_algorithm`, so a cell's recorded `(page_faults, hit_ratio)` equals
the run of that cell alone on a fresh backend of the same capacity, no
matter which cells ran before; and the `page_faults` that
`compare_algorithms` reports for a policy equal a standalone replay of the
same sequences under that policy. -/
theorem benchmark_cells_independent :
    (∀ (s : SimState) (cells : List (Algo × List (Nat × Nat))),
      runCellsFrom s cells =
        cells.map (fun c => benchCellPure s.frames.length c.1 c.2)) ∧
    (∀ (algos : List Algo) (fut seqs : List (Nat × Nat)) (a : Algo)
      (st : CompareStats), (a, st) ∈ compare_algorithms algos fut seqs →
      st.page_faults = (standaloneReplay a fut seqs).page_faults) := by
  constructor
  · intro s cells
    induction cells generalizing s with
    | nil => rfl
    | cons c rest ih =>
        obtain ⟨a, seqs⟩ := c
        have hreset2 : applyOp (initState s.frames.length) Op.reset =
            initState s.frames.length := by
          show initState (initState s.frames.length).frames.length =
            initState s.frames.length
          rw [initState_frames_length]
        have hcell : benchCellFrom s a seqs =
            benchCellFrom (initState s.frames.length) a seqs := by
          unfold benchCellFrom
          rw [show applyOp s Op.reset = initState s.frames.length from rfl, hreset2]
        have hInv : Inv (set_algorithm
            (create_process (initState s.frames.length) benchmarkProcessPages).2 a) :=
          inv_applyOp (Op.setAlgo a)
            (inv_applyOp (Op.create benchmarkProcessPages)
              (inv_initState s.frames.length))
        have hrep := (@replay_facts seqs (set_algorithm
          (create_process (initState s.frames.length) benchmarkProcessPages).2 a) hInv).2
        have hlen2 : (benchCellFrom s a seqs).2.frames.length = s.frames.length := by
          show (replaySeq (set_algorithm
            (create_process (initState s.frames.length) benchmarkProcessPages).2 a)
              seqs).frames.length = s.frames.length
          rw [hrep]
          show (initState s.frames.length).frames.length = s.frames.length
          rw [initState_frames_length]
        have h1 : (benchCellFrom s a seqs).1 = benchCellPure s.frames.length a seqs := by
          unfold benchCellPure
          rw [hcell]
        have h2 : runCellsFrom (benchCellFrom s a seqs).2 rest =
            rest.map (fun c => benchCellPure s.frames.length c.1 c.2) := by
          rw [ih ((benchCellFrom s a seqs).2), hlen2]
        show (benchCellFrom s a seqs).1 ::
          runCellsFrom (benchCellFrom s a seqs).2 rest = _
        rw [h1, h2, List.map_cons]
  · intro algos fut seqs a st hmem
    unfold compare_algorithms at hmem
    obtain ⟨a', ha', heq⟩ := List.mem_map.mp hmem
    have ha2 : a' = a := congrArg Prod.fst heq
    subst ha2
    have hpf := congrArg (fun x => (Prod.snd x).page_faults) heq
    exact hpf.symm

/-- C4 witness: `compare_algorithms` at one policy and the empty sequence
reports the standalone-replay fault count. -/
theorem benchmark_cells_independent_witness :
    (CompareStats.mk 0 0 0 1).page_faults =
      (standaloneReplay Algo.FIFO [] []).page_faults :=
  benchmark_cells_independent.2 [Algo.FIFO] [] [] Algo.FIFO
    (CompareStats.mk 0 0 0 1) (by decide)

/-- A whitespace character is not a hexadecimal digit. -/
theorem space_not_hex {c : Char} (h : isSpaceB c = true) : isHexDigitB c = false := by
  unfold isSpaceB at h
  rw [decide_eq_true_eq] at h
  rcases h with h | h | h | h <;> subst h <;> decide

/-- `parseInt(·, 16)` on a nonempty all-hex-digit input returns exactly its
base-16 value. -/
theorem jsParse_hexdigits (cs : List Char) (hne : cs ≠ [])
    (hhex : ∀ c ∈ cs, isHexDigitB c = true) :
    jsParseIntHexChars cs = some (hexVal cs) := by
  obtain ⟨c, rest, rfl⟩ := List.exists_cons_of_ne_nil hne
  have hc := hhex c (List.mem_cons_self _ _)
  have hnotspace : isSpaceB c = false := by
    cases hs : isSpaceB c
    · rfl
    · rw [space_not_hex hs] at hc
      exact absurd hc Bool.false_ne_true
  have hdrop : (c :: rest).dropWhile isSpaceB = c :: rest := by
    simp [List.dropWhile_cons, hnotspace]
  have hcond : ¬((c :: rest).take 2 = ['0', 'x'] ∨ (c :: rest).take 2 = ['0', 'X']) := by
    intro hcontra
    cases rest with
    | nil => rcases hcontra with h | h <;> simp [List.take] at h
    | cons c2 rest2 =>
        have hc2 := hhex c2 (List.mem_cons_of_mem _ (List.mem_cons_self _ _))
        rcases hcontra with h | h
        · have h2 : c2 = 'x' := by
            simp [List.take] at h
            exact h.2
          rw [h2] at hc2
          exact absurd hc2 (by decide)
        · have h2 : c2 = 'X' := by
            simp [List.take] at h
            exact h.2
          rw [h2] at hc2
          exact absurd hc2 (by decide)
  have hstrip : jsStripHexPrefix (c :: rest) = c :: rest := by
    unfold jsStripHexPrefix
    rw [if_neg hcond]
  have htake : (c :: rest).takeWhile isHexDigitB = c :: rest :=
    List.takeWhile_eq_self_iff.mpr hhex
  unfold jsParseIntHexChars
  rw [hdrop, hstrip]
  unfold jsParseHexTail
  rw [htake]
  simp [List.isEmpty]

/-- C10: `translateAddress` transmits `parseInt(virtualAddress, 16)`: every
hex-digit input is read as its base-16 value, never as decimal — the input
"10" is transmitted as 16, not 10. -/
theorem translate_address_parses_hex :
    (∀ s : String, s.data ≠ [] → (∀ c ∈ s.data, isHexDigitB c = true) →
      translateAddressPayload s = some (hexVal s.data)) ∧
    translateAddressPayload "10" = some 16 ∧
    translateAddressPayload "10" ≠ some 10 := by
  refine ⟨?_, by decide, by decide⟩
  intro s h1 h2
  exact jsParse_hexdigits s.data h1 h2

/-- C10 witness: the all-hex-digit input "ff" is transmitted as its base-16
value. -/
theorem translate_address_parses_hex_witness :
    translateAddressPayload "ff" = some (hexVal "ff".data) :=
  translate_address_parses_hex.1 "ff" (by decide) (by decide)

end Claims
